import Mathlib

/-!
Shallow embedding of the dirge path library: a component-level model of
src/norm.rs, src/rel.rs and src/abs.rs under Unix path semantics. A path
value is identified with its list of components, as produced by Rust's
Path::components(); Rust compares paths component-wise (PartialEq for Path
compares components()), so equalities below match the library's own
equality.
-/

/-- One path component: std::path::Component on Unix (no prefixes). -/
inductive Component where
  | root
  | curdir
  | dotdot
  | normal (s : String)
deriving DecidableEq

/-- A path, identified with its component list. The empty list is the empty
path (the only path whose os_str is empty). -/
abbrev DPath := List Component

/-- Path::is_absolute on Unix: the path has a root, i.e. its first
component is the root marker. -/
def is_absolute : DPath → Bool
  | Component.root :: _ => true
  | _ => false

/-- Path::is_relative: the negation of is_absolute. -/
def is_relative (p : DPath) : Bool := ! is_absolute p

/-- The component-level effect of PathBuf::pop: truncate to the parent,
returning none exactly when the parent does not exist, which happens for
the empty path and for the bare root. -/
def popPath (buf : DPath) : Option DPath :=
  if buf = [] ∨ buf = [Component.root] then none else some buf.dropLast

/-- The component-level effect of PathBuf::push of a single component:
pushing the root (an absolute path) replaces the whole buffer; any other
component is appended. -/
def pushComp (buf : DPath) (c : Component) : DPath :=
  match c with
  | Component.root => [Component.root]
  | c => buf ++ [c]

/-- The body of the loop in normalize_path (src/norm.rs) for one input
component: a CurDir is skipped; a ParentDir pops the last component if
possible and is kept (pushed) otherwise; every other component is pushed. -/
def normStep (buf : DPath) (c : Component) : DPath :=
  match c with
  | Component.curdir => buf
  | Component.dotdot =>
      match popPath buf with
      | some b => b
      | none => pushComp buf Component.dotdot
  | c => pushComp buf c

/-- normalize_path of src/norm.rs: fold the loop body left-to-right over
the input components starting from the empty buffer; if the result is
empty and the input was not, the result is the single CurDir component. -/
def normalize_path (p : DPath) : DPath :=
  let normalized := p.foldl normStep []
  if normalized = [] ∧ p ≠ [] then [Component.curdir] else normalized

/-- NormPathBuf of src/norm.rs: a path buffer produced by normalization. -/
structure NormPathBuf where
  path : DPath
deriving DecidableEq

/-- NormPath of src/norm.rs: the borrowed view over normalized path data. -/
structure NormPath where
  path : DPath
deriving DecidableEq

/-- AbsPathBuf of src/abs.rs: a path buffer guaranteed absolute. -/
structure AbsPathBuf where
  path : DPath
deriving DecidableEq

/-- AbsPath of src/abs.rs: the borrowed view over absolute path data. -/
structure AbsPath where
  path : DPath
deriving DecidableEq

/-- RelPathBuf of src/rel.rs: a path buffer guaranteed relative. -/
structure RelPathBuf where
  path : DPath
deriving DecidableEq

/-- RelPath of src/rel.rs: the borrowed view over relative path data. -/
structure RelPath where
  path : DPath
deriving DecidableEq

/-- The io::ErrorKind values this library constructs. -/
inductive ErrorKind where
  | invalidInput
deriving DecidableEq

/-- An io::Error as the library builds it: an error kind plus a message. -/
structure IoError where
  kind : ErrorKind
  msg : String
deriving DecidableEq

/-- to_rel_path_buf of src/rel.rs: when the path is relative, succeed with
an exact copy of it; otherwise fail with InvalidInput and the message
"path must be relative". -/
def to_rel_path_buf (p : DPath) : Except IoError RelPathBuf :=
  if is_relative p then Except.ok ⟨p⟩
  else Except.error ⟨ErrorKind.invalidInput, "path must be relative"⟩

/-- to_norm_path_buf of src/norm.rs: always Ok of the normalized path. -/
def to_norm_path_buf (p : DPath) : Except IoError NormPathBuf :=
  Except.ok ⟨normalize_path p⟩

/-- Drop one leading CurDir component, if present (the effect of
strip_prefix of "." with unwrap_or inside std::path::absolute). -/
def stripLeadingDot (p : DPath) : DPath :=
  match p with
  | Component.curdir :: rest => rest
  | _ => p

/-- std::path::absolute (the Unix implementation) at the component level,
with the current working directory passed explicitly as the ambient value
it reads: the empty path is an InvalidInput error; an absolute path is
returned as its own component list (the special double-slash case collapses
at the component level); a relative path is appended to the current
directory after dropping a leading CurDir component. -/
def std_absolute (cwd : DPath) (p : DPath) : Except IoError DPath :=
  if p = [] then
    Except.error ⟨ErrorKind.invalidInput, "cannot make an empty path absolute"⟩
  else if is_absolute p then Except.ok p
  else Except.ok (cwd ++ stripLeadingDot p)

/-- to_abs_path_buf of src/abs.rs: wrap the result of std::path::absolute. -/
def to_abs_path_buf (cwd : DPath) (p : DPath) : Except IoError AbsPathBuf :=
  (std_absolute cwd p).map AbsPathBuf.mk

/-- Deserialize for AbsPathBuf (src/abs.rs): after the incoming string is
read as a path buffer, re-validate that it is absolute; otherwise a custom
deserialization error. -/
def deserializeAbsPathBuf (p : DPath) : Except String AbsPathBuf :=
  if is_absolute p then Except.ok ⟨p⟩
  else Except.error ("path must be absolute")

/-- Deserialize for RelPathBuf (src/rel.rs): after the incoming string is
read as a path buffer, re-validate that it is relative; otherwise a custom
deserialization error. -/
def deserializeRelPathBuf (p : DPath) : Except String RelPathBuf :=
  if is_relative p then Except.ok ⟨p⟩
  else Except.error ("path must be relative")

/-- Deserialize for NormPathBuf (src/norm.rs): always normalize the
incoming path buffer; never a category error. -/
def deserializeNormPathBuf (p : DPath) : Except String NormPathBuf :=
  Except.ok ⟨normalize_path p⟩

/-- Deref for AbsPathBuf: view the same path data (AbsPath::ref_cast). -/
def AbsPathBuf.deref (b : AbsPathBuf) : AbsPath := ⟨b.path⟩

/-- ToOwned for AbsPath: copy the viewed path data into a new buffer. -/
def AbsPath.to_owned (v : AbsPath) : AbsPathBuf := ⟨v.path⟩

/-- Deref for RelPathBuf: view the same path data (RelPath::ref_cast). -/
def RelPathBuf.deref (b : RelPathBuf) : RelPath := ⟨b.path⟩

/-- ToOwned for RelPath: copy the viewed path data into a new buffer. -/
def RelPath.to_owned (v : RelPath) : RelPathBuf := ⟨v.path⟩

/-- Deref for NormPathBuf: view the same path data (NormPath::ref_cast). -/
def NormPathBuf.deref (b : NormPathBuf) : NormPath := ⟨b.path⟩

/-- ToOwned for NormPath: copy the viewed path data into a new buffer. -/
def NormPath.to_owned (v : NormPath) : NormPathBuf := ⟨v.path⟩

/-- The head shapes a normalization buffer can have before its plain-name
tail: nothing, a bare root, a single unresolved ParentDir, or a root
followed by a single unresolved ParentDir. -/
def headOk (hd : DPath) : Prop :=
  hd = [] ∨ hd = [Component.root] ∨ hd = [Component.dotdot] ∨
    hd = [Component.root, Component.dotdot]

/-- The invariant of the normalization loop buffer: an allowed head
followed by plain names only. -/
def BufInv (buf : DPath) : Prop :=
  ∃ (hd : DPath) (names : List String),
    headOk hd ∧ buf = hd ++ names.map Component.normal

theorem bufInv_nil : BufInv [] := ⟨[], [], Or.inl rfl, rfl⟩

theorem concat_normal_ne_root (l : DPath) (s : String) :
    l ++ [Component.normal s] ≠ [Component.root] := by
  cases l with
  | nil => simp
  | cons a t => simp

theorem bufInv_normStep (buf : DPath) (c : Component) (hb : BufInv buf) :
    BufInv (normStep buf c) := by
  obtain ⟨hd, names, hhd, rfl⟩ := hb
  cases c with
  | curdir => exact ⟨hd, names, hhd, rfl⟩
  | root => exact ⟨[Component.root], [], Or.inr (Or.inl rfl), by simp [normStep, pushComp]⟩
  | normal s =>
      refine ⟨hd, names ++ [s], hhd, ?_⟩
      simp [normStep, pushComp]
  | dotdot =>
      rcases List.eq_nil_or_concat names with hn | ⟨ns, s, rfl⟩
      · subst hn
        rcases hhd with rfl | rfl | rfl | rfl
        · exact ⟨[Component.dotdot], [], Or.inr (Or.inr (Or.inl rfl)), by decide⟩
        · exact ⟨[Component.root, Component.dotdot], [],
            Or.inr (Or.inr (Or.inr rfl)), by decide⟩
        · exact ⟨[], [], Or.inl rfl, by decide⟩
        · exact ⟨[Component.root], [], Or.inr (Or.inl rfl), by decide⟩
      · simp only [List.concat_eq_append]
        have hrw : hd ++ (ns ++ [s]).map Component.normal =
            (hd ++ ns.map Component.normal) ++ [Component.normal s] := by
          simp
        have hne : hd ++ (ns ++ [s]).map Component.normal ≠ [] := by
          rw [hrw]; simp
        have hnr : hd ++ (ns ++ [s]).map Component.normal ≠ [Component.root] := by
          rw [hrw]; exact concat_normal_ne_root _ s
        refine ⟨hd, ns, hhd, ?_⟩
        simp only [normStep, popPath, hne, hnr, or_self, if_false]
        rw [hrw, List.dropLast_concat]

theorem bufInv_foldl (p : DPath) (buf : DPath) (hb : BufInv buf) :
    BufInv (p.foldl normStep buf) := by
  induction p generalizing buf with
  | nil => exact hb
  | cons c t ih => exact ih _ (bufInv_normStep _ _ hb)

theorem normalize_path_def (p : DPath) :
    normalize_path p =
      if p.foldl normStep [] = [] ∧ p ≠ [] then [Component.curdir]
      else p.foldl normStep [] := rfl

theorem normalize_shape (p : DPath) :
    normalize_path p = [Component.curdir] ∨ BufInv (normalize_path p) := by
  rw [normalize_path_def]
  by_cases hc : p.foldl normStep [] = [] ∧ p ≠ []
  · rw [if_pos hc]; exact Or.inl rfl
  · rw [if_neg hc]; exact Or.inr (bufInv_foldl p [] bufInv_nil)

theorem foldl_map_normal (names : List String) (buf : DPath) :
    (names.map Component.normal).foldl normStep buf =
      buf ++ names.map Component.normal := by
  induction names generalizing buf with
  | nil => simp
  | cons s t ih =>
      simp only [List.map_cons, List.foldl_cons]
      rw [ih]
      simp [normStep, pushComp]

theorem foldl_self (hd : DPath) (hhd : headOk hd) (names : List String) :
    List.foldl normStep [] (hd ++ names.map Component.normal) =
      hd ++ names.map Component.normal := by
  have base : List.foldl normStep [] hd = hd := by
    rcases hhd with rfl | rfl | rfl | rfl <;> rfl
  rw [List.foldl_append, base, foldl_map_normal]

theorem norm_of_bufInv (buf : DPath) (hb : BufInv buf) :
    normalize_path buf = buf := by
  obtain ⟨hd, names, hhd, rfl⟩ := hb
  rw [normalize_path_def, foldl_self hd hhd names, if_neg]
  rintro ⟨h1, h2⟩
  exact h2 h1

theorem dotdot_not_mem_map (names : List String) :
    Component.dotdot ∉ names.map Component.normal := by simp

theorem bufInv_dotdot_pos (buf : DPath) (hb : BufInv buf) :
    ∀ l1 l2, buf = l1 ++ Component.dotdot :: l2 →
      l1 = [] ∨ l1 = [Component.root] := by
  obtain ⟨hd, names, hhd, rfl⟩ := hb
  intro l1 l2 he
  rcases hhd with rfl | rfl | rfl | rfl
  · exfalso
    apply dotdot_not_mem_map names
    rw [List.nil_append] at he
    rw [he]
    simp
  · cases l1 with
    | nil => simp at he
    | cons a t =>
        exfalso
        apply dotdot_not_mem_map names
        simp only [List.cons_append, List.singleton_append, List.nil_append,
          List.cons.injEq] at he
        rw [he.2]
        simp
  · cases l1 with
    | nil => exact Or.inl rfl
    | cons a t =>
        exfalso
        apply dotdot_not_mem_map names
        simp only [List.cons_append, List.singleton_append, List.nil_append,
          List.cons.injEq] at he
        rw [he.2]
        simp
  · cases l1 with
    | nil => simp at he
    | cons a t =>
        cases t with
        | nil =>
            simp only [List.cons_append, List.nil_append, List.cons.injEq] at he
            exact Or.inr (by rw [he.1])
        | cons b u =>
            exfalso
            apply dotdot_not_mem_map names
            simp only [List.cons_append, List.nil_append, List.cons.injEq] at he
            rw [he.2.2]
            simp

theorem bufInv_count (buf : DPath) (hb : BufInv buf) :
    buf.count Component.dotdot ≤ 1 := by
  obtain ⟨hd, names, hhd, rfl⟩ := hb
  have h2 : (names.map Component.normal).count Component.dotdot = 0 :=
    List.count_eq_zero.mpr (dotdot_not_mem_map names)
  rw [List.count_append, h2]
  rcases hhd with rfl | rfl | rfl | rfl <;> simp

theorem bufInv_no_curdir (buf : DPath) (hb : BufInv buf) :
    Component.curdir ∉ buf := by
  obtain ⟨hd, names, hhd, rfl⟩ := hb
  intro hm
  rcases List.mem_append.mp hm with hm | hm
  · rcases hhd with rfl | rfl | rfl | rfl <;> simp at hm
  · rcases List.mem_map.mp hm with ⟨s, _, hs⟩
    exact Component.noConfusion hs

theorem foldl_root_replicate (n : Nat) :
    List.foldl normStep [Component.root] (List.replicate n Component.dotdot) =
      (if n % 2 = 0 then [Component.root]
       else [Component.root, Component.dotdot]) ∧
    List.foldl normStep [Component.root, Component.dotdot]
        (List.replicate n Component.dotdot) =
      (if n % 2 = 0 then [Component.root, Component.dotdot]
       else [Component.root]) := by
  induction n with
  | zero => exact ⟨rfl, rfl⟩
  | succ n ih =>
      have hstep1 : normStep [Component.root] Component.dotdot =
          [Component.root, Component.dotdot] := rfl
      have hstep2 : normStep [Component.root, Component.dotdot] Component.dotdot =
          [Component.root] := rfl
      constructor
      · rw [List.replicate_succ, List.foldl_cons, hstep1, ih.2]
        by_cases hn : n % 2 = 0
        · have h1 : (n + 1) % 2 = 1 := by omega
          simp [hn, h1]
        · have h1 : (n + 1) % 2 = 0 := by omega
          simp [hn, h1]
      · rw [List.replicate_succ, List.foldl_cons, hstep2, ih.1]
        by_cases hn : n % 2 = 0
        · have h1 : (n + 1) % 2 = 1 := by omega
          simp [hn, h1]
        · have h1 : (n + 1) % 2 = 0 := by omega
          simp [hn, h1]

/-- Claim C1 counterexample: the input whose segments spell the relative
path of three ParentDir markers followed by etc and passwd does NOT
normalize to itself: the second ParentDir pops the first, so the result is
one ParentDir followed by etc and passwd. -/
theorem dotdot_cancels_dotdot_cex :
    normalize_path [Component.dotdot, Component.dotdot, Component.dotdot,
        Component.normal ("etc"), Component.normal ("passwd")] =
      [Component.dotdot, Component.normal ("etc"), Component.normal ("passwd")] ∧
    normalize_path [Component.dotdot, Component.dotdot, Component.dotdot,
        Component.normal ("etc"), Component.normal ("passwd")] ≠
      [Component.dotdot, Component.dotdot, Component.dotdot,
        Component.normal ("etc"), Component.normal ("passwd")] := by
  exact ⟨rfl, by decide⟩

/-- Claim C1 (amended): a ParentDir input segment removes the last output
segment whenever the output buffer can be popped at all (it is non-empty
and not the bare root), including when that last segment is itself a
previously appended ParentDir; only an empty or bare-root output makes the
ParentDir be appended. Consequently runs of leading ParentDir segments
collapse in pairs, and the three leading ParentDir segments before etc and
passwd normalize to a single one. -/
theorem parent_pops_any_poppable :
    (∀ buf : DPath, buf ≠ [] → buf ≠ [Component.root] →
      normStep buf Component.dotdot = buf.dropLast) ∧
    normStep [] Component.dotdot = [Component.dotdot] ∧
    normStep [Component.root] Component.dotdot =
      [Component.root, Component.dotdot] ∧
    normalize_path [Component.dotdot, Component.dotdot, Component.dotdot,
        Component.normal ("etc"), Component.normal ("passwd")] =
      [Component.dotdot, Component.normal ("etc"), Component.normal ("passwd")] := by
  refine ⟨?_, rfl, rfl, rfl⟩
  intro buf h1 h2
  simp [normStep, popPath, h1, h2]

/-- Claim C2 counterexample: the root marker followed by one ParentDir
normalizes to itself, so a root-anchored input CAN produce a ParentDir
component after the root: the ParentDir is preserved, not discarded. -/
theorem root_dotdot_preserved_cex :
    normalize_path [Component.root, Component.dotdot] =
      [Component.root, Component.dotdot] ∧
    Component.dotdot ∈ normalize_path [Component.root, Component.dotdot] := by
  exact ⟨rfl, by decide⟩

/-- Claim C2 (amended): for a root-anchored input consisting of the root
marker followed by n ParentDir segments, the first ParentDir after the root
cannot be popped and is appended, and each subsequent ParentDir pops the
previous one: the result is the bare root when n is even and the root
followed by a single ParentDir when n is odd. In particular a ParentDir
immediately after the root is preserved, not discarded. -/
theorem normalize_root_dotdots (n : Nat) :
    normalize_path (Component.root :: List.replicate n Component.dotdot) =
      if n % 2 = 0 then [Component.root]
      else [Component.root, Component.dotdot] := by
  rw [normalize_path_def]
  have h0 : List.foldl normStep []
        (Component.root :: List.replicate n Component.dotdot) =
      List.foldl normStep [Component.root] (List.replicate n Component.dotdot) := rfl
  rw [h0, (foldl_root_replicate n).1]
  by_cases hn : n % 2 = 0 <;> simp [hn]

/-- Claim C3: normalization is idempotent: normalizing the output of
normalize_path yields the identical component list. -/
theorem normalize_idempotent (p : DPath) :
    normalize_path (normalize_path p) = normalize_path p := by
  rcases normalize_shape p with he | hb
  · rw [he]; decide
  · exact norm_of_bufInv _ hb

/-- Claim C8: for every input, the normalized output contains at most one
ParentDir component in total, and wherever a ParentDir occurs, everything
before it is either nothing or exactly the leading root marker: a ParentDir
appears only as the very first component or immediately after the root. -/
theorem normalize_at_most_one_dotdot (p : DPath) :
    (normalize_path p).count Component.dotdot ≤ 1 ∧
    ∀ l1 l2, normalize_path p = l1 ++ Component.dotdot :: l2 →
      l1 = [] ∨ l1 = [Component.root] := by
  rcases normalize_shape p with he | hb
  · rw [he]
    refine ⟨by decide, ?_⟩
    intro l1 l2 hcontra
    cases l1 with
    | nil => simp at hcontra
    | cons a t => simp at hcontra
  · exact ⟨bufInv_count _ hb, bufInv_dotdot_pos _ hb⟩

/-- Claim C4 counterexample: the constructor applied to the path consisting
of the single CurDir component yields a live NormPathBuf whose path is the
single CurDir component, so a normalized buffer CAN contain a CurDir
segment. -/
theorem normalize_dot_output_cex :
    to_norm_path_buf [Component.curdir] =
      Except.ok ⟨[Component.curdir]⟩ ∧
    Component.curdir ∈ normalize_path [Component.curdir] := by
  exact ⟨rfl, by decide⟩

/-- Claim C4 (amended): every NormPathBuf produced by the constructor
either is the canonical single-CurDir path (the representation of an input
that normalizes to nothing) or contains no CurDir component and has every
ParentDir leading: preceded by nothing or only by the root marker. -/
theorem norm_path_buf_invariant (p : DPath) (b : NormPathBuf)
    (hb : to_norm_path_buf p = Except.ok b) :
    b.path = [Component.curdir] ∨
    (Component.curdir ∉ b.path ∧
      ∀ l1 l2, b.path = l1 ++ Component.dotdot :: l2 →
        l1 = [] ∨ l1 = [Component.root]) := by
  simp only [to_norm_path_buf, Except.ok.injEq] at hb
  subst hb
  rcases normalize_shape p with he | hinv
  · exact Or.inl he
  · exact Or.inr ⟨bufInv_no_curdir _ hinv, bufInv_dotdot_pos _ hinv⟩

/-- Claim C4 witness: the amended invariant instantiated at the buffer the
constructor returns for the single-name input a. -/
theorem norm_path_buf_invariant_witness :
    (NormPathBuf.mk [Component.normal ("a")]).path = [Component.curdir] ∨
    (Component.curdir ∉ (NormPathBuf.mk [Component.normal ("a")]).path ∧
      ∀ l1 l2, (NormPathBuf.mk [Component.normal ("a")]).path =
          l1 ++ Component.dotdot :: l2 →
        l1 = [] ∨ l1 = [Component.root]) :=
  norm_path_buf_invariant [Component.normal ("a")]
    ⟨[Component.normal ("a")]⟩ rfl

/-- Claim C5: the relative-path fallible constructor succeeds exactly on
the paths that are not absolute, returning its input unchanged, and fails
on absolute paths with the InvalidInput error carrying the message that
the path must be relative; it is a pure function of its input. -/
theorem to_rel_path_buf_spec (p : DPath) :
    (is_absolute p = false → to_rel_path_buf p = Except.ok ⟨p⟩) ∧
    (is_absolute p = true →
      to_rel_path_buf p =
        Except.error ⟨ErrorKind.invalidInput, "path must be relative"⟩) := by
  constructor <;> intro h <;> simp [to_rel_path_buf, is_relative, h]

/-- Claim C6: for an already-absolute input path, make_absolute succeeds
and returns the path unchanged, for every value of the current working
directory (no current-directory involvement). -/
theorem to_abs_path_buf_absolute_unchanged (cwd p : DPath)
    (h : is_absolute p = true) :
    to_abs_path_buf cwd p = Except.ok ⟨p⟩ := by
  have hne : p ≠ [] := by
    intro he
    rw [he] at h
    simp [is_absolute] at h
  simp [to_abs_path_buf, std_absolute, hne, h, Except.map]

/-- Claim C6 witness: the absolute path of segments opt and app is returned
unchanged regardless of the current working directory. -/
theorem to_abs_path_buf_absolute_unchanged_witness :
    to_abs_path_buf [Component.root]
        [Component.root, Component.normal ("opt"), Component.normal ("app")] =
      Except.ok ⟨[Component.root, Component.normal ("opt"),
        Component.normal ("app")]⟩ :=
  to_abs_path_buf_absolute_unchanged [Component.root]
    [Component.root, Component.normal ("opt"), Component.normal ("app")] rfl

/-- Claim C7: deserialization re-validates per category asymmetrically:
the absolute-path buffer deserializer errors exactly on non-absolute
input and the relative-path buffer deserializer errors exactly on absolute
input (each returning a validated input unchanged on success), while the
normalized-path buffer deserializer never errors and returns the
normalization of the incoming path. -/
theorem deserialize_asymmetry (p : DPath) :
    (is_absolute p = true →
      deserializeAbsPathBuf p = Except.ok ⟨p⟩ ∧
      deserializeRelPathBuf p = Except.error ("path must be relative")) ∧
    (is_absolute p = false →
      deserializeAbsPathBuf p = Except.error ("path must be absolute") ∧
      deserializeRelPathBuf p = Except.ok ⟨p⟩) ∧
    deserializeNormPathBuf p = Except.ok ⟨normalize_path p⟩ := by
  refine ⟨?_, ?_, rfl⟩ <;> intro h <;>
    constructor <;>
    simp [deserializeAbsPathBuf, deserializeRelPathBuf, is_relative, h]

/-- Claim C9: the normalization constructor is total and infallible: for
every input it returns Ok of the normalized buffer and never an error. -/
theorem to_norm_path_buf_total (p : DPath) :
    to_norm_path_buf p = Except.ok ⟨normalize_path p⟩ ∧
    ∀ e, to_norm_path_buf p ≠ Except.error e :=
  ⟨rfl, fun _ h => Except.noConfusion h⟩

/-- Claim C10: for each of the three categories, converting an owned buffer
to its borrowed view and copying the view back to an owned buffer yields a
value equal to the original buffer. -/
theorem round_trip_via_view (a : AbsPathBuf) (r : RelPathBuf) (n : NormPathBuf) :
    AbsPath.to_owned (AbsPathBuf.deref a) = a ∧
    RelPath.to_owned (RelPathBuf.deref r) = r ∧
    NormPath.to_owned (NormPathBuf.deref n) = n :=
  ⟨rfl, rfl, rfl⟩
